import Mathlib

/-!
# Verification of the ccswitch worktree safety-check and rebase-propagation engine

Shallow embedding of the Go sources:
* `src/internal/git/repository.go` — `GetCommitCountDifference`, `HasUncommittedChanges`
* `src/internal/git/rebase.go` — `RebaseCommit`, `AbortRebase`
* `src/unnamed/part_000` — `rebaseSession`, `selectWorktreeForRebase` (rebase command)
  and `fanoutBranches`, `rebaseWorktree`, `abortRebaseInWorktree` (fanout command)

The backend (`git`) is modelled as an environment assigning to each worktree
path the results of the individual git invocations the code issues; every
embedded operation also returns the ordered trace of backend commands it
issued, so that claims about "no backend command / no mutation is issued"
become statements about that trace.
-/

namespace CCSwitch

/-- `git.Worktree` (path + branch); the branch may be empty for detached HEAD. -/
structure Worktree where
  path : String
  branch : String
  deriving DecidableEq, Repr

/-- One git backend invocation, as issued by the embedded code.
`statusQuery` is `git status --porcelain`; `revListQuery` is
`git rev-list --count <range>`; the remaining constructors are the mutating
commands `git add -A`, `git commit -m`, `git rebase <ref>` and
`git rebase --abort`, each run in the directory given by its first field. -/
inductive GitCmd where
  | statusQuery (dir : String)
  | revListQuery (dir : String) (range : String)
  | stage (dir : String)
  | commit (dir : String) (message : String)
  | rebase (dir : String) (onto : String)
  | rebaseAbort (dir : String)
  deriving DecidableEq, Repr

/-- Whether a backend command mutates repository state (stage / commit /
rebase / rebase-abort, as opposed to the read-only status and rev-list
queries). -/
def GitCmd.isMutation : GitCmd → Bool
  | .statusQuery _ => false
  | .revListQuery _ _ => false
  | .stage _ => true
  | .commit _ _ => true
  | .rebase _ _ => true
  | .rebaseAbort _ => true

/-- The directory a backend command runs in (`cmd.Dir` in the Go code). -/
def GitCmd.dirOf : GitCmd → String
  | .statusQuery d => d
  | .revListQuery d _ => d
  | .stage d => d
  | .commit d _ => d
  | .rebase d _ => d
  | .rebaseAbort d => d

/-! ## Substring matching (Go `strings.Contains`, `strings.HasPrefix`,
`strings.HasSuffix`) -/

/-- `containsSub needle hay` decides whether `needle` occurs as a contiguous
substring of `hay` (Go `strings.Contains(hay, needle)`), by checking every
suffix of `hay`. -/
def containsSub (needle : List Char) : List Char → Bool
  | [] => needle.isEmpty
  | c :: t => needle.isPrefixOf (c :: t) || containsSub needle t

/-- Go `strings.Contains(hay, needle)`. -/
def strContains (hay needle : String) : Bool :=
  containsSub needle.toList hay.toList

/-- Case-insensitive substring containment (NOT what the Go code does; this is
the spec-side notion used to state claim C4, which speaks of case-insensitive
matching). -/
def strContainsCI (hay needle : String) : Bool :=
  containsSub (needle.toList.map Char.toLower) (hay.toList.map Char.toLower)

/-- Go `strings.HasPrefix(s, pre)`. -/
def strHasPrefix (s pre : String) : Bool :=
  pre.toList.isPrefixOf s.toList

/-- Go `strings.HasSuffix(s, suf)`. -/
def strHasSuffix (s suf : String) : Bool :=
  suf.toList.isSuffixOf s.toList

/-! ## Rebase unit (`rebaseWorktree` in `src/unnamed/part_000`, identical in
logic to `RebaseManager.RebaseCommit` in `src/internal/git/rebase.go`) -/

/-- Result of running one backend command to completion: `ok` is whether the
process exited successfully, `errMsg` the Go `error` text when it did not,
`output` the captured combined output. -/
structure CmdResult where
  ok : Bool
  errMsg : String
  output : String
  deriving DecidableEq, Repr

/-- Outcome of one rebase attempt (`success, conflict, err` triple in the Go
code): `success`, `conflict` (output matched a conflict marker, auto-abort
issued), or `otherFailure` carrying the raw backend error and the captured
output unmodified. -/
inductive RebaseOutcome where
  | success
  | conflict
  | otherFailure (errMsg : String) (output : String)
  deriving DecidableEq, Repr

/-- The conflict-marker check from `rebaseWorktree` / `RebaseCommit`:
`strings.Contains(outputStr, "conflict") || strings.Contains(outputStr, "CONFLICT")
|| strings.Contains(outputStr, "Failed to merge")` — three case-SENSITIVE
substring tests. -/
def isConflictOutput (s : String) : Bool :=
  strContains s "conflict" || strContains s "CONFLICT" || strContains s "Failed to merge"

/-- `rebaseWorktree` (`src/unnamed/part_000` lines 441–460) given the result
`res` of the `git rebase <branch>` invocation. The second component is the
number of `git rebase --abort` invocations issued. `abortRes` is the result of
that abort invocation; the Go code discards it (`_ = cmd.Run()` in
`abortRebaseInWorktree`, `_ = rm.AbortRebase()` in `RebaseCommit`), which is
mirrored here by the parameter being unused. -/
def rebaseWorktree (res : CmdResult) (abortRes : Bool) : RebaseOutcome × Nat :=
  if res.ok then (RebaseOutcome.success, 0)
  else if isConflictOutput res.output then (RebaseOutcome.conflict, 1)
  else (RebaseOutcome.otherFailure res.errMsg res.output, 0)

/-! ## Repository inspector and backend environment -/

/-- The git backend's behaviour, keyed by worktree directory:
`dirty d` is the verdict of `HasUncommittedChanges(d)` (`git status
--porcelain`; a process failure is already folded into `false` there, as in
`repository.go` line 94); `aheadRes d` / `behindRes d` are the results of the
two `git rev-list --count` queries issued by `GetCommitCountDifference`
(`none` = the invocation failed); `rebaseRes d` is the result of `git rebase
<branch>` run in `d`; `abortRes d` the result of `git rebase --abort` in `d`. -/
structure FanoutEnv where
  dirty : String → Bool
  aheadRes : String → Option Nat
  behindRes : String → Option Nat
  rebaseRes : String → CmdResult
  abortRes : String → Bool

/-- `git.HasUncommittedChanges` (`repository.go` lines 90–95), with its trace. -/
def hasUncommittedChanges (env : FanoutEnv) (dir : String) : Bool × List GitCmd :=
  (env.dirty dir, [GitCmd.statusQuery dir])

/-- `git.GetCommitCountDifference` (`repository.go` lines 100–131): two
independent directional `rev-list --count` queries; if either invocation
fails the whole call fails (`none`); otherwise it returns the single NET
difference `aheadCount - behindCount` (an `Int`): "Positive values = ahead,
Negative = behind, Zero = same". The ahead query (`base..HEAD`) runs first;
the behind query (`HEAD..base`) is only issued if the ahead query succeeded. -/
def getCommitCountDifference (env : FanoutEnv) (worktreePath baseBranch : String) :
    Option Int × List GitCmd :=
  match env.aheadRes worktreePath with
  | none => (none, [GitCmd.revListQuery worktreePath (baseBranch ++ "..HEAD")])
  | some aheadCount =>
    match env.behindRes worktreePath with
    | none => (none, [GitCmd.revListQuery worktreePath (baseBranch ++ "..HEAD"),
                      GitCmd.revListQuery worktreePath ("HEAD.." ++ baseBranch)])
    | some behindCount =>
      (some ((aheadCount : Int) - (behindCount : Int)),
       [GitCmd.revListQuery worktreePath (baseBranch ++ "..HEAD"),
        GitCmd.revListQuery worktreePath ("HEAD.." ++ baseBranch)])

/-! ## Safety evaluator (the per-candidate checks of `fanoutBranches`,
`src/unnamed/part_000` lines 337–369) -/

/-- The safety verdict for one candidate worktree. `blockedDirty`,
`blockedAhead` and `blockedError` are the spec's `UnsafeDirty`, `UnsafeAhead`
and `UnsafeError` (the token `Unsafe` itself is avoided in identifiers). -/
inductive SafetyVerdict where
  | safe
  | blockedDirty
  | blockedAhead
  | blockedError
  deriving DecidableEq, Repr

/-- The body of the safety loop of `fanoutBranches` for one candidate
(lines 337–369): check 1 is `HasUncommittedChanges` (dirty wins, and no
divergence query is issued); check 2 runs `GetCommitCountDifference` and an
error blocks the worktree; check 3 blocks when the returned net difference is
`> 0`; otherwise the worktree is safe. -/
def evaluateWorktree (env : FanoutEnv) (baseBranch : String) (wt : Worktree) :
    SafetyVerdict × List GitCmd :=
  let (d, t1) := hasUncommittedChanges env wt.path
  if d then (SafetyVerdict.blockedDirty, t1)
  else
    let (r, t2) := getCommitCountDifference env wt.path baseBranch
    match r with
    | none => (SafetyVerdict.blockedError, t1 ++ t2)
    | some diff =>
      if diff > 0 then (SafetyVerdict.blockedAhead, t1 ++ t2)
      else (SafetyVerdict.safe, t1 ++ t2)

/-! ## Fanout orchestrator (`fanoutBranches`, `src/unnamed/part_000`
lines 283–438) -/

/-- The result of the planning loop: each candidate paired with its verdict in
discovery order (the printed plan lines), the branch names accumulated in the
Go `unsafeWorktrees` slice, and the worktrees accumulated in `safeWorktrees`. -/
structure FanoutPlan where
  entries : List (Worktree × SafetyVerdict)
  badBranches : List String
  safeSet : List Worktree
  deriving DecidableEq, Repr

/-- The planning (safety-check) loop of `fanoutBranches` (lines 337–369):
evaluate every candidate in discovery order; a non-safe verdict appends the
branch to `unsafeWorktrees` (here `badBranches`), a safe one appends the
worktree to `safeWorktrees` (here `safeSet`). -/
def planFanout (env : FanoutEnv) (baseBranch : String) :
    List Worktree → FanoutPlan × List GitCmd
  | [] => (⟨[], [], []⟩, [])
  | wt :: rest =>
    let (v, t) := evaluateWorktree env baseBranch wt
    let (p, tr) := planFanout env baseBranch rest
    if v = SafetyVerdict.safe then
      (⟨(wt, v) :: p.entries, p.badBranches, wt :: p.safeSet⟩, t ++ tr)
    else
      (⟨(wt, v) :: p.entries, wt.branch :: p.badBranches, p.safeSet⟩, t ++ tr)

/-- The cumulative progress report of the execution loop: branches rebased
successfully in order (`completed`), the first failing branch with its
outcome if the loop stopped (`stopped`), and the branches never attempted
after the stop (`notAttempted`). -/
structure FanoutExecReport where
  completed : List String
  stopped : Option (String × RebaseOutcome)
  notAttempted : List String
  deriving DecidableEq, Repr

/-- The execution loop of `fanoutBranches` (lines 403–429): for each safe
worktree in order, run `rebaseWorktree wt.Path currentBranch`; on success
record it and continue; on conflict or any other failure return immediately,
leaving every remaining worktree unattempted. The trace records the `git
rebase` invocation and, on conflict, the single `git rebase --abort` issued
by `rebaseWorktree` before it returns. -/
def execFanout (env : FanoutEnv) (baseBranch : String) :
    List Worktree → FanoutExecReport × List GitCmd
  | [] => (⟨[], none, []⟩, [])
  | wt :: rest =>
    let (outcome, aborts) := rebaseWorktree (env.rebaseRes wt.path) (env.abortRes wt.path)
    let t := GitCmd.rebase wt.path baseBranch ::
             (if aborts = 1 then [GitCmd.rebaseAbort wt.path] else [])
    match outcome with
    | RebaseOutcome.success =>
      let (rep, tr) := execFanout env baseBranch rest
      (⟨wt.branch :: rep.completed, rep.stopped, rep.notAttempted⟩, t ++ tr)
    | o => (⟨[], some (wt.branch, o), rest.map Worktree.branch⟩, t)

/-- The candidate filter of `fanoutBranches` (lines 310–316): drop the
worktree at the current directory, worktrees with an empty branch (detached
HEAD) and worktrees whose branch is the current (source) branch. -/
def fanoutTargets (currentDir currentBranch : String) (worktrees : List Worktree) :
    List Worktree :=
  worktrees.filter fun wt =>
    wt.path != currentDir && wt.branch != "" && wt.branch != currentBranch

/-- The user-visible outcome of one `fanout` invocation. `blocked` carries
the per-worktree refusal report (each non-safe candidate with its verdict,
as printed by the planning loop before the refusal message). -/
inductive FanoutResult where
  | noTargets
  | blocked (report : List (Worktree × SafetyVerdict))
  | noSafeSet
  | cancelled
  | executed (report : FanoutExecReport)
  deriving DecidableEq, Repr

/-- `fanoutBranches` (`src/unnamed/part_000` lines 283–438), from the point
where the current directory, current branch and worktree list have been
obtained. `confirmInput` is the answer read by `fmt.Scanln(&confirm)`; the
operation proceeds only when `strings.ToLower(confirm) == "yes"`. Phase 1
(planning) issues only read queries; if `unsafeWorktrees` is non-empty the
operation is refused before the confirmation prompt and the execution loop. -/
def fanoutBranches (env : FanoutEnv) (currentDir currentBranch : String)
    (worktrees : List Worktree) (confirmInput : String) :
    FanoutResult × List GitCmd :=
  let targets := fanoutTargets currentDir currentBranch worktrees
  if targets.isEmpty then (FanoutResult.noTargets, [])
  else
    let (plan, planTr) := planFanout env currentBranch targets
    if plan.badBranches.length > 0 then
      (FanoutResult.blocked
        (plan.entries.filter fun e => !(e.2 == SafetyVerdict.safe)), planTr)
    else if plan.safeSet.isEmpty then (FanoutResult.noSafeSet, planTr)
    else if confirmInput.toLower != "yes" then (FanoutResult.cancelled, planTr)
    else
      let (rep, execTr) := execFanout env currentBranch plan.safeSet
      (FanoutResult.executed rep, planTr ++ execTr)

/-! ## Single-target rebase command (`rebaseSession`,
`src/unnamed/part_000` lines 43–246) -/

/-- Unix `filepath.IsAbs`: the path starts with `/`. -/
def isAbsPath (s : String) : Bool :=
  strHasPrefix s "/"

/-- Whether a command argument is treated as a path rather than a branch name
(`rebaseSession` line 79): `filepath.IsAbs(target) ||
strings.HasPrefix(target, ".") || strings.HasPrefix(target, "~")`. -/
def pathLikeArg (target : String) : Bool :=
  isAbsPath target || strHasPrefix target "." || strHasPrefix target "~"

/-- The argument-matching loops of `rebaseSession` (lines 76–95): for a
path-like argument, the first worktree whose path equals the argument or
merely ends with it (`wt.Path == target || strings.HasSuffix(wt.Path,
target)`); otherwise, the first worktree whose branch equals the argument. -/
def findTargetWorktree (worktrees : List Worktree) (target : String) : Option Worktree :=
  if pathLikeArg target then
    worktrees.find? fun wt => wt.path == target || strHasSuffix wt.path target
  else
    worktrees.find? fun wt => wt.branch == target

/-- The interactive selector's candidate filter (`selectWorktreeForRebase`
lines 146–151): drop the worktree at the current directory and worktrees with
an empty branch (detached HEAD). -/
def availableForRebase (worktrees : List Worktree) (currentDir : String) :
    List Worktree :=
  worktrees.filter fun wt => wt.path != currentDir && wt.branch != ""

/-- The read-only status queries issued while printing the selector's list
(`selectWorktreeForRebase` lines 170–194): for each candidate a status query;
when it is not dirty, additionally the divergence queries of
`GetCommitCountDifference` against the current branch. -/
def selectorDisplayTrace (env : FanoutEnv) (currentBranch : String) :
    List Worktree → List GitCmd
  | [] => []
  | wt :: rest =>
    (GitCmd.statusQuery wt.path ::
      (if env.dirty wt.path then []
       else (getCommitCountDifference env wt.path currentBranch).2))
    ++ selectorDisplayTrace env currentBranch rest

/-- `selectWorktreeForRebase` (lines 142–217): filter the candidates, print
the numbered list (issuing the display status queries), and read the user's
choice. `choice` is the parsed input: `none` models quitting, empty or
unparseable input; `some i` a number, accepted only when `1 ≤ i ≤ length`. -/
def selectWorktreeForRebase (env : FanoutEnv) (worktrees : List Worktree)
    (currentDir currentBranch : String) (choice : Option Nat) :
    Option Worktree × List GitCmd :=
  let avail := availableForRebase worktrees currentDir
  if avail.isEmpty then (none, [])
  else
    let tr := selectorDisplayTrace env currentBranch avail
    match choice with
    | none => (none, tr)
    | some i => if 1 ≤ i ∧ i ≤ avail.length then (avail[i-1]?, tr) else (none, tr)

/-- The backend behaviour consumed by `CommitAndRebaseSession`, keyed by
worktree directory: the result of `git add -A` and `git commit -m <msg>`
(`none` = success, `some e` = failure with error text `e`), and the rebase
and abort results as in `FanoutEnv`. -/
structure SessionBackend where
  stageRes : String → Option String
  commitRes : String → String → Option String
  rebaseRes : String → CmdResult
  abortRes : String → Bool

/-- Modelled from the spec: `Manager.CommitAndRebaseSession` lives in
`internal/session`, which is not under `src/`. Per spec §4.6 the sequence is
`Commit Unit.stageAll` → `Commit Unit.commit(message)` → `Rebase
Unit.rebase(worktree.path, currentBranch)`; if staging or the commit fails the
rebase step is never attempted, and a rebase conflict is auto-aborted by the
Rebase Unit itself. -/
def commitAndRebaseSession (sess : SessionBackend) (path message currentBranch : String) :
    Except String Unit × List GitCmd :=
  match sess.stageRes path with
  | some e => (Except.error e, [GitCmd.stage path])
  | none =>
    match sess.commitRes path message with
    | some e => (Except.error e, [GitCmd.stage path, GitCmd.commit path message])
    | none =>
      let (outcome, aborts) := rebaseWorktree (sess.rebaseRes path) (sess.abortRes path)
      let tr := [GitCmd.stage path, GitCmd.commit path message,
                 GitCmd.rebase path currentBranch]
                ++ (if aborts = 1 then [GitCmd.rebaseAbort path] else [])
      match outcome with
      | RebaseOutcome.success => (Except.ok (), tr)
      | RebaseOutcome.conflict => (Except.error "rebase conflict detected, auto-aborted", tr)
      | RebaseOutcome.otherFailure e out =>
        (Except.error ("rebase failed: " ++ e ++ ", output: " ++ out), tr)

/-- The user-visible outcome of one `rebase` command invocation. -/
inductive RebaseSessionResult where
  | noWorktrees
  | notFound (target : String)
  | userQuit
  | selfRebase (branch : String)
  | emptyMessage
  | failed (errMsg : String)
  | succeeded (branch : String)
  deriving DecidableEq, Repr

/-- Target resolution in `rebaseSession` (lines 74–112): an explicit argument
is matched by `findTargetWorktree` (no backend commands); with no argument the
interactive selector runs (issuing its display queries). -/
def resolveTarget (env : FanoutEnv) (worktrees : List Worktree)
    (currentDir currentBranch : String) (arg : Option String) (choice : Option Nat) :
    Option Worktree × List GitCmd :=
  match arg with
  | some target => (findTargetWorktree worktrees target, [])
  | none => selectWorktreeForRebase env worktrees currentDir currentBranch choice

/-- The tail of `rebaseSession` once a target worktree is in hand
(lines 114–139): reject a self-rebase (`targetWorktree.Branch ==
currentBranch`); then reject an empty commit message (the prompt's answer,
already whitespace-trimmed by `promptForCommitMessage`); only then call
`CommitAndRebaseSession`. `tr0` is the trace accumulated so far. -/
def rebaseSessionOn (sess : SessionBackend) (currentBranch : String) (wt : Worktree)
    (commitMessage : String) (tr0 : List GitCmd) :
    RebaseSessionResult × List GitCmd :=
  if wt.branch == currentBranch then (RebaseSessionResult.selfRebase currentBranch, tr0)
  else if commitMessage == "" then (RebaseSessionResult.emptyMessage, tr0)
  else
    let (r, tr) := commitAndRebaseSession sess wt.path commitMessage currentBranch
    match r with
    | Except.error m => (RebaseSessionResult.failed m, tr0 ++ tr)
    | Except.ok _ => (RebaseSessionResult.succeeded wt.branch, tr0 ++ tr)

/-- `rebaseSession` (`src/unnamed/part_000` lines 43–140), from the point
where the current directory, current branch and worktree list have been
obtained. `arg` is the optional command-line argument, `choice` the
interactive selection, `commitMessage` the trimmed answer to the commit
message prompt. -/
def rebaseSession (env : FanoutEnv) (sess : SessionBackend)
    (currentDir currentBranch : String) (worktrees : List Worktree)
    (arg : Option String) (choice : Option Nat) (commitMessage : String) :
    RebaseSessionResult × List GitCmd :=
  if worktrees.isEmpty then (RebaseSessionResult.noWorktrees, [])
  else
    let (sel, tr) := resolveTarget env worktrees currentDir currentBranch arg choice
    match sel with
    | none =>
      match arg with
      | some target => (RebaseSessionResult.notFound target, tr)
      | none => (RebaseSessionResult.userQuit, tr)
    | some wt => rebaseSessionOn sess currentBranch wt commitMessage tr

/-! ## Characterisation lemmas for the safety evaluator -/

/-- A dirty worktree is vetoed immediately: only the status query is issued. -/
theorem evaluateWorktree_dirty (env : FanoutEnv) (br : String) (wt : Worktree)
    (h : env.dirty wt.path = true) :
    evaluateWorktree env br wt =
      (SafetyVerdict.blockedDirty, [GitCmd.statusQuery wt.path]) := by
  simp [evaluateWorktree, hasUncommittedChanges, h]

/-- A clean worktree whose ahead query fails is vetoed as an inspection error;
the behind query is never issued. -/
theorem evaluateWorktree_aheadFail (env : FanoutEnv) (br : String) (wt : Worktree)
    (h : env.dirty wt.path = false) (ha : env.aheadRes wt.path = none) :
    evaluateWorktree env br wt =
      (SafetyVerdict.blockedError,
       [GitCmd.statusQuery wt.path,
        GitCmd.revListQuery wt.path (br ++ "..HEAD")]) := by
  simp [evaluateWorktree, hasUncommittedChanges, getCommitCountDifference, h, ha]

/-- A clean worktree whose behind query fails is vetoed as an inspection
error after both rev-list queries. -/
theorem evaluateWorktree_behindFail (env : FanoutEnv) (br : String) (wt : Worktree)
    (h : env.dirty wt.path = false) (a : Nat) (ha : env.aheadRes wt.path = some a)
    (hb : env.behindRes wt.path = none) :
    evaluateWorktree env br wt =
      (SafetyVerdict.blockedError,
       [GitCmd.statusQuery wt.path,
        GitCmd.revListQuery wt.path (br ++ "..HEAD"),
        GitCmd.revListQuery wt.path ("HEAD.." ++ br)]) := by
  simp [evaluateWorktree, hasUncommittedChanges, getCommitCountDifference, h, ha, hb]

/-- A clean worktree with both counts available gets the ahead check, which
the code decides from the NET difference `aheadCount - behindCount`. -/
theorem evaluateWorktree_counts (env : FanoutEnv) (br : String) (wt : Worktree)
    (h : env.dirty wt.path = false) (a b : Nat) (ha : env.aheadRes wt.path = some a)
    (hb : env.behindRes wt.path = some b) :
    evaluateWorktree env br wt =
      ((if (a : Int) - (b : Int) > 0 then SafetyVerdict.blockedAhead
        else SafetyVerdict.safe),
       [GitCmd.statusQuery wt.path,
        GitCmd.revListQuery wt.path (br ++ "..HEAD"),
        GitCmd.revListQuery wt.path ("HEAD.." ++ br)]) := by
  simp only [evaluateWorktree, hasUncommittedChanges, getCommitCountDifference, h, ha, hb,
    Bool.false_eq_true, if_false]
  split <;> rfl

/-- Every command issued while evaluating one candidate is a read-only query
at that candidate's own path. -/
theorem evaluateWorktree_trace_readonly (env : FanoutEnv) (br : String) (wt : Worktree) :
    ∀ c ∈ (evaluateWorktree env br wt).2, c.isMutation = false ∧ c.dirOf = wt.path := by
  intro c hc
  by_cases h : env.dirty wt.path
  · rw [evaluateWorktree_dirty env br wt h] at hc
    simp at hc
    subst hc
    exact ⟨rfl, rfl⟩
  · rw [Bool.not_eq_true] at h
    rcases ha : env.aheadRes wt.path with _ | a
    · rw [evaluateWorktree_aheadFail env br wt h ha] at hc
      simp at hc
      rcases hc with rfl | rfl <;> exact ⟨rfl, rfl⟩
    · rcases hb : env.behindRes wt.path with _ | b
      · rw [evaluateWorktree_behindFail env br wt h a ha hb] at hc
        simp at hc
        rcases hc with rfl | rfl | rfl <;> exact ⟨rfl, rfl⟩
      · rw [evaluateWorktree_counts env br wt h a b ha hb] at hc
        simp at hc
        rcases hc with rfl | rfl | rfl <;> exact ⟨rfl, rfl⟩

/-! ## Unfolding lemmas for the planning loop -/

theorem planFanout_cons (env : FanoutEnv) (br : String) (wt : Worktree)
    (rest : List Worktree) :
    planFanout env br (wt :: rest) =
      (if (evaluateWorktree env br wt).1 = SafetyVerdict.safe then
        (⟨(wt, (evaluateWorktree env br wt).1) :: (planFanout env br rest).1.entries,
          (planFanout env br rest).1.badBranches,
          wt :: (planFanout env br rest).1.safeSet⟩,
         (evaluateWorktree env br wt).2 ++ (planFanout env br rest).2)
      else
        (⟨(wt, (evaluateWorktree env br wt).1) :: (planFanout env br rest).1.entries,
          wt.branch :: (planFanout env br rest).1.badBranches,
          (planFanout env br rest).1.safeSet⟩,
         (evaluateWorktree env br wt).2 ++ (planFanout env br rest).2)) := by
  rcases hev : evaluateWorktree env br wt with ⟨v, t⟩
  rcases hpl : planFanout env br rest with ⟨p, tr⟩
  simp only [planFanout, hev, hpl]

theorem planFanout_trace (env : FanoutEnv) (br : String) (wt : Worktree)
    (rest : List Worktree) :
    (planFanout env br (wt :: rest)).2 =
      (evaluateWorktree env br wt).2 ++ (planFanout env br rest).2 := by
  rw [planFanout_cons]
  split <;> rfl

theorem planFanout_entries (env : FanoutEnv) (br : String) (wt : Worktree)
    (rest : List Worktree) :
    (planFanout env br (wt :: rest)).1.entries =
      (wt, (evaluateWorktree env br wt).1) :: (planFanout env br rest).1.entries := by
  rw [planFanout_cons]
  split <;> rfl

theorem planFanout_badBranches (env : FanoutEnv) (br : String) (wt : Worktree)
    (rest : List Worktree) :
    (planFanout env br (wt :: rest)).1.badBranches =
      (if (evaluateWorktree env br wt).1 = SafetyVerdict.safe then
        (planFanout env br rest).1.badBranches
      else wt.branch :: (planFanout env br rest).1.badBranches) := by
  rw [planFanout_cons]
  split <;> simp_all

theorem planFanout_safeSet (env : FanoutEnv) (br : String) (wt : Worktree)
    (rest : List Worktree) :
    (planFanout env br (wt :: rest)).1.safeSet =
      (if (evaluateWorktree env br wt).1 = SafetyVerdict.safe then
        wt :: (planFanout env br rest).1.safeSet
      else (planFanout env br rest).1.safeSet) := by
  rw [planFanout_cons]
  split <;> simp_all

/-- The planning loop issues only read-only queries, each at the path of one
of its input candidates. -/
theorem planFanout_trace_readonly (env : FanoutEnv) (br : String) :
    ∀ (l : List Worktree), ∀ c ∈ (planFanout env br l).2,
      c.isMutation = false ∧ c.dirOf ∈ l.map Worktree.path := by
  intro l
  induction l with
  | nil => intro c hc; simp [planFanout] at hc
  | cons wt rest ih =>
    intro c hc
    rw [planFanout_trace] at hc
    rcases List.mem_append.mp hc with hc | hc
    · obtain ⟨h1, h2⟩ := evaluateWorktree_trace_readonly env br wt c hc
      exact ⟨h1, by simp [h2]⟩
    · obtain ⟨h1, h2⟩ := ih c hc
      exact ⟨h1, by simp only [List.map_cons, List.mem_cons]; exact Or.inr h2⟩

/-- Every worktree placed in the safe set came from the candidate list. -/
theorem planFanout_safeSet_sub (env : FanoutEnv) (br : String) :
    ∀ (l : List Worktree), ∀ w ∈ (planFanout env br l).1.safeSet, w ∈ l := by
  intro l
  induction l with
  | nil => intro w hw; simp [planFanout] at hw
  | cons wt rest ih =>
    intro w hw
    rw [planFanout_safeSet] at hw
    by_cases hv : (evaluateWorktree env br wt).1 = SafetyVerdict.safe
    · rw [if_pos hv] at hw
      rcases List.mem_cons.mp hw with rfl | hw
      · exact List.mem_cons_self _ _
      · exact List.mem_cons_of_mem _ (ih w hw)
    · rw [if_neg hv] at hw
      exact List.mem_cons_of_mem _ (ih w hw)

/-! ## Unfolding lemmas for the execution loop -/

theorem execFanout_cons_ok (env : FanoutEnv) (br : String) (wt : Worktree)
    (rest : List Worktree) (h : (env.rebaseRes wt.path).ok = true) :
    execFanout env br (wt :: rest) =
      (⟨wt.branch :: (execFanout env br rest).1.completed,
        (execFanout env br rest).1.stopped,
        (execFanout env br rest).1.notAttempted⟩,
       GitCmd.rebase wt.path br :: (execFanout env br rest).2) := by
  rcases hr : execFanout env br rest with ⟨rep, tr⟩
  simp [execFanout, rebaseWorktree, h, hr]

theorem execFanout_cons_fail (env : FanoutEnv) (br : String) (wt : Worktree)
    (rest : List Worktree) (h : (env.rebaseRes wt.path).ok = false) :
    execFanout env br (wt :: rest) =
      (⟨[],
        some (wt.branch,
          (rebaseWorktree (env.rebaseRes wt.path) (env.abortRes wt.path)).1),
        rest.map Worktree.branch⟩,
       GitCmd.rebase wt.path br ::
         (if isConflictOutput (env.rebaseRes wt.path).output then
            [GitCmd.rebaseAbort wt.path]
          else [])) := by
  by_cases hco : isConflictOutput (env.rebaseRes wt.path).output
  · simp [execFanout, rebaseWorktree, h, hco]
  · simp [execFanout, rebaseWorktree, h, hco]

/-- Every command issued by the execution loop runs in the directory of one
of its input worktrees. -/
theorem execFanout_trace_dir (env : FanoutEnv) (br : String) :
    ∀ (l : List Worktree), ∀ c ∈ (execFanout env br l).2,
      c.dirOf ∈ l.map Worktree.path := by
  intro l
  induction l with
  | nil => intro c hc; simp [execFanout] at hc
  | cons wt rest ih =>
    intro c hc
    by_cases h : (env.rebaseRes wt.path).ok
    · rw [execFanout_cons_ok env br wt rest h] at hc
      rcases List.mem_cons.mp hc with rfl | hc
      · simp [GitCmd.dirOf]
      · simp only [List.map_cons, List.mem_cons]
        exact Or.inr (ih c hc)
    · rw [Bool.not_eq_true] at h
      rw [execFanout_cons_fail env br wt rest h] at hc
      rcases List.mem_cons.mp hc with rfl | hc
      · simp [GitCmd.dirOf]
      · rcases hco : isConflictOutput (env.rebaseRes wt.path).output
        · rw [hco] at hc
          simp at hc
        · rw [hco] at hc
          simp at hc
          subst hc
          simp [GitCmd.dirOf]

/-! ## The all-or-nothing gate of `fanoutBranches` -/

/-- When the planning pass put at least one branch in `unsafeWorktrees`, the
whole operation resolves to `blocked` with the planning trace only: the
confirmation prompt and the execution loop are never reached. -/
theorem fanoutBranches_gate (env : FanoutEnv) (dir br : String) (wts : List Worktree)
    (confirm : String)
    (h : (planFanout env br (fanoutTargets dir br wts)).1.badBranches ≠ []) :
    fanoutBranches env dir br wts confirm =
      (FanoutResult.blocked
        (((planFanout env br (fanoutTargets dir br wts)).1.entries).filter
          fun e => !(e.2 == SafetyVerdict.safe)),
       (planFanout env br (fanoutTargets dir br wts)).2) := by
  have hne : fanoutTargets dir br wts ≠ [] := by
    intro h0
    apply h
    rw [h0]
    rfl
  rcases hpl : planFanout env br (fanoutTargets dir br wts) with ⟨plan, planTr⟩
  have hE : (fanoutTargets dir br wts).isEmpty = false := by
    cases hT : fanoutTargets dir br wts
    · exact absurd hT hne
    · rfl
  have hlen : plan.badBranches.length > 0 := by
    rw [hpl] at h
    exact List.length_pos.mpr h
  simp only [fanoutBranches, hE, Bool.false_eq_true, if_false, hpl, if_pos hlen]

/-! ## First-match characterisation of `List.find?` -/

/-- `find?` returns the first element satisfying the predicate: it satisfies
the predicate and every element strictly before it in the list does not. -/
theorem find?_first_match {α : Type} (p : α → Bool) :
    ∀ (l : List α) (a : α), l.find? p = some a →
      p a = true ∧ ∃ l1 l2, l = l1 ++ a :: l2 ∧ ∀ x ∈ l1, p x = false := by
  intro l
  induction l with
  | nil => intro a h; simp [List.find?] at h
  | cons x xs ih =>
    intro a h
    by_cases hx : p x
    · rw [List.find?_cons_of_pos _ hx] at h
      obtain rfl : x = a := by injection h
      exact ⟨hx, [], xs, rfl, by simp⟩
    · rw [List.find?_cons_of_neg _ hx] at h
      obtain ⟨hpa, l1, l2, rfl, hall⟩ := ih a h
      refine ⟨hpa, x :: l1, l2, rfl, ?_⟩
      intro y hy
      rcases List.mem_cons.mp hy with rfl | hy
      · exact Bool.not_eq_true _ ▸ (by simpa using hx)
      · exact hall y hy

/-! ## Read-only traces of the interactive selector -/

theorem getCommitCountDifference_trace_readonly (env : FanoutEnv) (p b : String) :
    ∀ c ∈ (getCommitCountDifference env p b).2, c.isMutation = false ∧ c.dirOf = p := by
  intro c hc
  rcases ha : env.aheadRes p with _ | a
  · simp only [getCommitCountDifference, ha] at hc
    simp at hc
    subst hc
    exact ⟨rfl, rfl⟩
  · rcases hb : env.behindRes p with _ | bc
    · simp only [getCommitCountDifference, ha, hb] at hc
      simp at hc
      rcases hc with rfl | rfl <;> exact ⟨rfl, rfl⟩
    · simp only [getCommitCountDifference, ha, hb] at hc
      simp at hc
      rcases hc with rfl | rfl <;> exact ⟨rfl, rfl⟩

theorem selectorDisplayTrace_readonly (env : FanoutEnv) (br : String) :
    ∀ (l : List Worktree), ∀ c ∈ selectorDisplayTrace env br l,
      c.isMutation = false := by
  intro l
  induction l with
  | nil => intro c hc; simp [selectorDisplayTrace] at hc
  | cons wt rest ih =>
    intro c hc
    simp only [selectorDisplayTrace] at hc
    rcases List.mem_append.mp hc with hc | hc
    · rcases List.mem_cons.mp hc with rfl | hc
      · rfl
      · by_cases hd : env.dirty wt.path
        · rw [if_pos hd] at hc
          cases hc
        · rw [if_neg hd] at hc
          exact (getCommitCountDifference_trace_readonly env wt.path br c hc).1
    · exact ih c hc

/-- The trace of the selector as a whole is read-only. -/
theorem selectWorktreeForRebase_trace_readonly (env : FanoutEnv)
    (wts : List Worktree) (dir br : String) (choice : Option Nat) :
    ∀ c ∈ (selectWorktreeForRebase env wts dir br choice).2,
      c.isMutation = false := by
  intro c hc
  unfold selectWorktreeForRebase at hc
  by_cases hE : (availableForRebase wts dir).isEmpty
  · rw [if_pos hE] at hc
    cases hc
  · rw [if_neg hE] at hc
    rcases choice with _ | i
    · exact selectorDisplayTrace_readonly env br _ c hc
    · simp only at hc
      by_cases hi : 1 ≤ i ∧ i ≤ (availableForRebase wts dir).length
      · rw [if_pos hi] at hc
        exact selectorDisplayTrace_readonly env br _ c hc
      · rw [if_neg hi] at hc
        exact selectorDisplayTrace_readonly env br _ c hc

/-- Target resolution never issues a mutating backend command. -/
theorem resolveTarget_trace_readonly (env : FanoutEnv) (wts : List Worktree)
    (dir br : String) (arg : Option String) (choice : Option Nat) :
    ∀ c ∈ (resolveTarget env wts dir br arg choice).2, c.isMutation = false := by
  intro c hc
  rcases arg with _ | target
  · exact selectWorktreeForRebase_trace_readonly env wts dir br choice c hc
  · simp [resolveTarget] at hc

/-! ## Claim theorems -/

/-- C1: the code evaluated at the failing input. The two directional counts
are computed independently, but `GetCommitCountDifference` collapses them to
the net difference and the fanout safety check tests `diff > 0` on that net
value: a clean candidate simultaneously ahead by 1 and behind by 2 of the
source branch nets to −1 and is classified `safe` — not `UnsafeAhead` even
though its aheadCount is positive, contradicting the claim (and the command's
own stated safety check "No other worktree is ahead of current branch"). -/
theorem c1_ahead_check_decided_by_net_difference :
    (evaluateWorktree
        ⟨fun _ => false, fun _ => some 1, fun _ => some 2,
         fun _ => ⟨true, "", ""⟩, fun _ => true⟩ "main" ⟨"/wt1", "feature-a"⟩).1
      = SafetyVerdict.safe
    ∧ (getCommitCountDifference
        ⟨fun _ => false, fun _ => some 1, fun _ => some 2,
         fun _ => ⟨true, "", ""⟩, fun _ => true⟩ "/wt1" "main").1 = some (-1)
    ∧ (1 : Nat) > 0 := by
  refine ⟨rfl, rfl, ?_⟩
  decide

/-- C4 counterexample: the claim's case-insensitive reading is false at a
concrete input. The failing output `"Conflict: could not apply abc"`
contains the marker `"conflict"` under case-insensitive matching, yet the
code (which uses case-sensitive `strings.Contains`) does not classify the
failure as a conflict. -/
theorem c4_case_insensitive_counterexample :
    ¬ (((rebaseWorktree ⟨false, "exit status 1", "Conflict: could not apply abc"⟩ true).1
          = RebaseOutcome.conflict)
        ↔ (strContainsCI "Conflict: could not apply abc" "conflict"
           || strContainsCI "Conflict: could not apply abc" "CONFLICT"
           || strContainsCI "Conflict: could not apply abc" "Failed to merge") = true) := by
  decide

/-- C4 (amended): for every failing rebase invocation the failure is
classified as a merge conflict exactly when the captured combined output
contains, under CASE-SENSITIVE matching, one of the literal substrings
`"conflict"`, `"CONFLICT"`, `"Failed to merge"`; a failing invocation whose
output contains none of these yields `otherFailure` carrying the raw backend
error and the captured output unmodified. -/
theorem c4_conflict_classification (res : CmdResult) (abortRes : Bool)
    (h : res.ok = false) :
    ((rebaseWorktree res abortRes).1 = RebaseOutcome.conflict ↔
      (strContains res.output "conflict" || strContains res.output "CONFLICT"
       || strContains res.output "Failed to merge") = true)
    ∧ ((strContains res.output "conflict" || strContains res.output "CONFLICT"
        || strContains res.output "Failed to merge") = false →
       (rebaseWorktree res abortRes).1
         = RebaseOutcome.otherFailure res.errMsg res.output) := by
  rcases hco : strContains res.output "conflict" || strContains res.output "CONFLICT"
      || strContains res.output "Failed to merge"
  · have hic : isConflictOutput res.output = false := hco
    simp [rebaseWorktree, h, hic]
  · have hic : isConflictOutput res.output = true := hco
    simp [rebaseWorktree, h, hic]

/-- C4 witness: a failing invocation whose output carries the literal
`CONFLICT` marker is classified as a conflict. -/
theorem c4_conflict_classification_witness :
    (((rebaseWorktree
          ⟨false, "exit status 128", "CONFLICT (content): Merge conflict in file.txt"⟩
          true).1 = RebaseOutcome.conflict) ↔
      (strContains "CONFLICT (content): Merge conflict in file.txt" "conflict"
       || strContains "CONFLICT (content): Merge conflict in file.txt" "CONFLICT"
       || strContains "CONFLICT (content): Merge conflict in file.txt" "Failed to merge")
        = true)
    ∧ ((strContains "CONFLICT (content): Merge conflict in file.txt" "conflict"
        || strContains "CONFLICT (content): Merge conflict in file.txt" "CONFLICT"
        || strContains "CONFLICT (content): Merge conflict in file.txt" "Failed to merge")
         = false →
       (rebaseWorktree
          ⟨false, "exit status 128", "CONFLICT (content): Merge conflict in file.txt"⟩
          true).1
         = RebaseOutcome.otherFailure "exit status 128"
             "CONFLICT (content): Merge conflict in file.txt") :=
  c4_conflict_classification
    ⟨false, "exit status 128", "CONFLICT (content): Merge conflict in file.txt"⟩ true rfl

/-- C5: when a failing rebase invocation is classified as a conflict, exactly
one rebase-abort is issued (the second component counts the issued abort
invocations) before the `conflict` outcome is returned; the outcome does not
depend on the abort invocation's own result; and in the fanout loop the single
abort command is issued against that same worktree right after its failing
rebase command. -/
theorem c5_conflict_aborts_once (res : CmdResult) (h1 : res.ok = false)
    (h2 : isConflictOutput res.output = true) :
    (∀ abortRes : Bool, rebaseWorktree res abortRes = (RebaseOutcome.conflict, 1))
    ∧ (∀ a1 a2 : Bool, rebaseWorktree res a1 = rebaseWorktree res a2)
    ∧ (∀ (env : FanoutEnv) (br : String) (wt : Worktree),
        env.rebaseRes wt.path = res →
        (execFanout env br [wt]).2
          = [GitCmd.rebase wt.path br, GitCmd.rebaseAbort wt.path]) := by
  have key : ∀ abortRes : Bool, rebaseWorktree res abortRes = (RebaseOutcome.conflict, 1) := by
    intro abortRes
    simp [rebaseWorktree, h1, h2]
  refine ⟨key, fun a1 a2 => by rw [key a1, key a2], ?_⟩
  intro env br wt he
  rw [execFanout_cons_fail env br wt [] (by rw [he]; exact h1)]
  rw [he, if_pos h2]

/-- C5 witness: the spec's scenario output
`"CONFLICT (content): Merge conflict in file.txt"` yields the `conflict`
outcome with exactly one abort issued, whether or not the abort succeeds. -/
theorem c5_conflict_aborts_once_witness :
    rebaseWorktree
        ⟨false, "exit status 1", "CONFLICT (content): Merge conflict in file.txt"⟩ false
      = (RebaseOutcome.conflict, 1) :=
  (c5_conflict_aborts_once
      ⟨false, "exit status 1", "CONFLICT (content): Merge conflict in file.txt"⟩
      rfl (by decide)).1 false

/-- C6: the safety checks run in short-circuit order with first match
winning: a dirty worktree is vetoed as dirty with only the status query
issued (no divergence query); a clean worktree whose divergence query fails
is vetoed as an inspection error; and a verdict of ahead-veto or safe is only
ever reached by a clean worktree whose divergence query succeeded. -/
theorem c6_short_circuit_order (env : FanoutEnv) (br : String) (wt : Worktree) :
    (env.dirty wt.path = true →
      evaluateWorktree env br wt
        = (SafetyVerdict.blockedDirty, [GitCmd.statusQuery wt.path]))
    ∧ (env.dirty wt.path = false →
        (getCommitCountDifference env wt.path br).1 = none →
        (evaluateWorktree env br wt).1 = SafetyVerdict.blockedError)
    ∧ (env.dirty wt.path = false →
        ∀ d : Int, (getCommitCountDifference env wt.path br).1 = some d →
        (evaluateWorktree env br wt).1
          = (if d > 0 then SafetyVerdict.blockedAhead else SafetyVerdict.safe))
    ∧ (((evaluateWorktree env br wt).1 = SafetyVerdict.blockedAhead
        ∨ (evaluateWorktree env br wt).1 = SafetyVerdict.safe) →
       env.dirty wt.path = false
       ∧ ∃ d, (getCommitCountDifference env wt.path br).1 = some d) := by
  refine ⟨evaluateWorktree_dirty env br wt, ?_, ?_, ?_⟩
  · intro h hnone
    rcases ha : env.aheadRes wt.path with _ | a
    · rw [evaluateWorktree_aheadFail env br wt h ha]
    · rcases hb : env.behindRes wt.path with _ | b
      · rw [evaluateWorktree_behindFail env br wt h a ha hb]
      · simp [getCommitCountDifference, ha, hb] at hnone
  · intro h d hd
    rcases ha : env.aheadRes wt.path with _ | a
    · simp [getCommitCountDifference, ha] at hd
    · rcases hb : env.behindRes wt.path with _ | b
      · simp [getCommitCountDifference, ha, hb] at hd
      · simp only [getCommitCountDifference, ha, hb] at hd
        have hd' : (a : Int) - (b : Int) = d := by
          simpa using hd
        rw [evaluateWorktree_counts env br wt h a b ha hb]
        rw [hd']
  · intro hv
    by_cases h : env.dirty wt.path
    · rw [evaluateWorktree_dirty env br wt h] at hv
      simp at hv
    · rw [Bool.not_eq_true] at h
      refine ⟨h, ?_⟩
      rcases ha : env.aheadRes wt.path with _ | a
      · rw [evaluateWorktree_aheadFail env br wt h ha] at hv
        simp at hv
      · rcases hb : env.behindRes wt.path with _ | b
        · rw [evaluateWorktree_behindFail env br wt h a ha hb] at hv
          simp at hv
        · exact ⟨(a : Int) - (b : Int), by simp [getCommitCountDifference, ha, hb]⟩

/-- C6 witness: a dirty worktree over a backend whose divergence queries
would fail is still vetoed as dirty, issuing only the status query. -/
theorem c6_short_circuit_order_witness :
    evaluateWorktree
        ⟨fun _ => true, fun _ => none, fun _ => none,
         fun _ => ⟨true, "", ""⟩, fun _ => true⟩ "main" ⟨"/w", "f"⟩
      = (SafetyVerdict.blockedDirty, [GitCmd.statusQuery "/w"]) :=
  (c6_short_circuit_order
      ⟨fun _ => true, fun _ => none, fun _ => none,
       fun _ => ⟨true, "", ""⟩, fun _ => true⟩ "main" ⟨"/w", "f"⟩).1 rfl

/-- C2: if the planning phase classifies at least one candidate as non-safe
(the Go `unsafeWorktrees` slice is non-empty), the whole fanout resolves to
the `blocked` report before the execution phase: no mutating backend command
(commit / rebase / abort / stage) is issued to any worktree, and every
non-safe candidate appears in the refusal report paired with its verdict. -/
theorem c2_gate_refuses_whole_operation (env : FanoutEnv) (dir br confirm : String)
    (wts : List Worktree)
    (h : (planFanout env br (fanoutTargets dir br wts)).1.badBranches ≠ []) :
    (fanoutBranches env dir br wts confirm).1 =
      FanoutResult.blocked
        (((planFanout env br (fanoutTargets dir br wts)).1.entries).filter
          fun e => !(e.2 == SafetyVerdict.safe))
    ∧ (∀ c ∈ (fanoutBranches env dir br wts confirm).2, c.isMutation = false)
    ∧ (∀ (wt : Worktree) (v : SafetyVerdict),
        (wt, v) ∈ (planFanout env br (fanoutTargets dir br wts)).1.entries →
        v ≠ SafetyVerdict.safe →
        (wt, v) ∈ (((planFanout env br (fanoutTargets dir br wts)).1.entries).filter
          fun e => !(e.2 == SafetyVerdict.safe))) := by
  have hg := fanoutBranches_gate env dir br wts confirm h
  refine ⟨by rw [hg], ?_, ?_⟩
  · intro c hc
    rw [hg] at hc
    exact (planFanout_trace_readonly env br _ c hc).1
  · intro wt v hmem hv
    refine List.mem_filter.mpr ⟨hmem, ?_⟩
    simp [hv]

/-- C2 witness: one dirty candidate blocks the whole fanout with the dirty
verdict enumerated. -/
theorem c2_gate_refuses_whole_operation_witness :
    (fanoutBranches
        ⟨fun _ => true, fun _ => none, fun _ => none,
         fun _ => ⟨true, "", ""⟩, fun _ => true⟩ "/d" "main" [⟨"/a", "fa"⟩] "yes").1 =
      FanoutResult.blocked
        (((planFanout
            ⟨fun _ => true, fun _ => none, fun _ => none,
             fun _ => ⟨true, "", ""⟩, fun _ => true⟩ "main"
            (fanoutTargets "/d" "main" [⟨"/a", "fa"⟩])).1.entries).filter
          fun e => !(e.2 == SafetyVerdict.safe)) :=
  (c2_gate_refuses_whole_operation
      ⟨fun _ => true, fun _ => none, fun _ => none,
       fun _ => ⟨true, "", ""⟩, fun _ => true⟩ "/d" "main" "yes" [⟨"/a", "fa"⟩]
      (by decide)).1

/-- C3: in the execution phase over a safe set `pre ++ w :: post` where every
rebase in `pre` succeeds and `w`'s rebase is the first to fail, the loop
stops at `w`: the report lists exactly the branches of `pre` as completed (in
order), `w` as the failing branch with its non-success outcome, and exactly
the branches of `post` as not attempted; and the command trace is one rebase
per worktree of `pre` (none undone), then `w`'s rebase plus its auto-abort
when the failure is a conflict, and no command for any worktree of `post`. -/
theorem c3_stop_at_first_failure (env : FanoutEnv) (br : String)
    (pre : List Worktree) (w : Worktree) (post : List Worktree)
    (hpre : ∀ x ∈ pre, (env.rebaseRes x.path).ok = true)
    (hw : (env.rebaseRes w.path).ok = false) :
    (execFanout env br (pre ++ w :: post)).1.completed = pre.map Worktree.branch
    ∧ (execFanout env br (pre ++ w :: post)).1.stopped
        = some (w.branch, (rebaseWorktree (env.rebaseRes w.path) (env.abortRes w.path)).1)
    ∧ (rebaseWorktree (env.rebaseRes w.path) (env.abortRes w.path)).1
        ≠ RebaseOutcome.success
    ∧ (execFanout env br (pre ++ w :: post)).1.notAttempted = post.map Worktree.branch
    ∧ (execFanout env br (pre ++ w :: post)).2
        = pre.map (fun x => GitCmd.rebase x.path br)
          ++ GitCmd.rebase w.path br ::
             (if isConflictOutput (env.rebaseRes w.path).output then
                [GitCmd.rebaseAbort w.path]
              else []) := by
  have hns : (rebaseWorktree (env.rebaseRes w.path) (env.abortRes w.path)).1
      ≠ RebaseOutcome.success := by
    by_cases hco : isConflictOutput (env.rebaseRes w.path).output <;>
      simp [rebaseWorktree, hw, hco]
  induction pre with
  | nil =>
    rw [List.nil_append]
    rw [execFanout_cons_fail env br w post hw]
    exact ⟨rfl, rfl, hns, rfl, rfl⟩
  | cons x xs ih =>
    have hx : (env.rebaseRes x.path).ok = true := hpre x (List.mem_cons_self x xs)
    obtain ⟨ih1, ih2, _, ih4, ih5⟩ := ih fun y hy => hpre y (List.mem_cons_of_mem x hy)
    rw [List.cons_append]
    rw [execFanout_cons_ok env br x (xs ++ w :: post) hx]
    refine ⟨?_, ih2, hns, ih4, ?_⟩
    · simp only [List.map_cons]
      rw [← ih1]
    · simp only [List.map_cons, List.cons_append]
      rw [← ih5]

/-- C3 witness: three safe worktrees where the second is the first to
conflict — one completed, the conflict recorded for the second, the third
not attempted, and the trace shows its rebase was never issued. -/
theorem c3_stop_at_first_failure_witness :
    (execFanout
        ⟨fun _ => false, fun _ => some 0, fun _ => some 0,
         fun p => if p = "/b" then ⟨false, "exit status 1", "CONFLICT (content): x"⟩
                  else ⟨true, "", ""⟩,
         fun _ => true⟩ "main"
        ([⟨"/a", "fa"⟩] ++ ⟨"/b", "fb"⟩ :: [⟨"/c", "fc"⟩])).1.completed
      = [⟨"/a", "fa"⟩].map Worktree.branch :=
  (c3_stop_at_first_failure
      ⟨fun _ => false, fun _ => some 0, fun _ => some 0,
       fun p => if p = "/b" then ⟨false, "exit status 1", "CONFLICT (content): x"⟩
                else ⟨true, "", ""⟩,
       fun _ => true⟩ "main" [⟨"/a", "fa"⟩] ⟨"/b", "fb"⟩ [⟨"/c", "fc"⟩]
      (by decide) (by decide)).1

/-- Every backend command issued by a whole `fanout` run executes in the
directory of one of the retained (filtered) candidates. -/
theorem fanoutBranches_trace_dir (env : FanoutEnv) (dir br : String)
    (wts : List Worktree) (confirm : String) :
    ∀ c ∈ (fanoutBranches env dir br wts confirm).2,
      c.dirOf ∈ (fanoutTargets dir br wts).map Worktree.path := by
  intro c hc
  by_cases hE : (fanoutTargets dir br wts).isEmpty
  · simp only [fanoutBranches, hE, if_true] at hc
    cases hc
  · rcases hpl : planFanout env br (fanoutTargets dir br wts) with ⟨plan, planTr⟩
    have hplanTr : ∀ c ∈ planTr, c.dirOf ∈ (fanoutTargets dir br wts).map Worktree.path := by
      intro c' hc'
      have := (planFanout_trace_readonly env br (fanoutTargets dir br wts) c'
        (by rw [hpl]; exact hc')).2
      exact this
    simp only [fanoutBranches, hE, Bool.false_eq_true, if_false, hpl] at hc
    by_cases h1 : plan.badBranches.length > 0
    · rw [if_pos h1] at hc
      exact hplanTr c hc
    · rw [if_neg h1] at hc
      by_cases h2 : plan.safeSet.isEmpty
      · rw [if_pos h2] at hc
        exact hplanTr c hc
      · rw [if_neg h2] at hc
        by_cases h3 : (confirm.toLower != "yes") = true
        · rw [if_pos h3] at hc
          exact hplanTr c hc
        · rw [if_neg h3] at hc
          rcases List.mem_append.mp hc with hc | hc
          · exact hplanTr c hc
          · have hdir := execFanout_trace_dir env br plan.safeSet c hc
            obtain ⟨w, hw1, hw2⟩ := List.mem_map.mp hdir
            have hwt : w ∈ fanoutTargets dir br wts :=
              planFanout_safeSet_sub env br (fanoutTargets dir br wts) w
                (by rw [hpl]; exact hw1)
            exact List.mem_map.mpr ⟨w, hwt, hw2⟩

/-- C9: the fanout candidate filter retains no empty-branch (detached)
worktree, no worktree at the current directory and no worktree on the source
branch; the interactive rebase selector's filter retains no empty-branch and
no current-directory worktree; and every backend command a fanout run issues
executes in the directory of a retained candidate — so an excluded worktree
is never evaluated or rebased by fanout. -/
theorem c9_filters_exclude (dir br : String) (wts : List Worktree) :
    (∀ wt ∈ fanoutTargets dir br wts,
       wt.branch ≠ "" ∧ wt.path ≠ dir ∧ wt.branch ≠ br)
    ∧ (∀ wt ∈ availableForRebase wts dir, wt.branch ≠ "" ∧ wt.path ≠ dir)
    ∧ (∀ (env : FanoutEnv) (confirm : String),
        ∀ c ∈ (fanoutBranches env dir br wts confirm).2,
          c.dirOf ∈ (fanoutTargets dir br wts).map Worktree.path) := by
  refine ⟨?_, ?_, ?_⟩
  · intro wt hwt
    have := List.mem_filter.mp hwt
    obtain ⟨-, hcond⟩ := this
    simp only [Bool.and_eq_true, bne_iff_ne, ne_eq] at hcond
    exact ⟨hcond.1.2, hcond.1.1, hcond.2⟩
  · intro wt hwt
    have := List.mem_filter.mp hwt
    obtain ⟨-, hcond⟩ := this
    simp only [Bool.and_eq_true, bne_iff_ne, ne_eq] at hcond
    exact ⟨hcond.2, hcond.1⟩
  · intro env confirm c hc
    exact fanoutBranches_trace_dir env dir br wts confirm c hc

/-- C9 witness: among candidates containing a detached (empty-branch)
worktree, one at the current directory and one on the source branch, a
retained candidate indeed has a non-empty branch distinct from the source
and a path distinct from the current directory. -/
theorem c9_filters_exclude_witness :
    (⟨"/a", "fa"⟩ : Worktree).branch ≠ ""
    ∧ (⟨"/a", "fa"⟩ : Worktree).path ≠ "/d"
    ∧ (⟨"/a", "fa"⟩ : Worktree).branch ≠ "main" :=
  (c9_filters_exclude "/d" "main"
      [⟨"/a", "fa"⟩, ⟨"/b", ""⟩, ⟨"/d", "x"⟩, ⟨"/e", "main"⟩]).1
    ⟨"/a", "fa"⟩ (by decide)

/-! ## Unfolding lemmas for the single-target rebase command -/

/-- When target resolution produced a worktree, the command proceeds with
that worktree and the trace accumulated by the resolution. -/
theorem rebaseSession_someTarget (env : FanoutEnv) (sess : SessionBackend)
    (dir br : String) (wts : List Worktree) (arg : Option String)
    (choice : Option Nat) (msg : String) (wt : Worktree)
    (h : wts.isEmpty = false)
    (hsel : (resolveTarget env wts dir br arg choice).1 = some wt) :
    rebaseSession env sess dir br wts arg choice msg
      = rebaseSessionOn sess br wt msg (resolveTarget env wts dir br arg choice).2 := by
  rcases hrt : resolveTarget env wts dir br arg choice with ⟨sel, tr⟩
  rw [hrt] at hsel
  have hsel' : sel = some wt := hsel
  subst hsel'
  simp only [rebaseSession, h, Bool.false_eq_true, if_false, hrt]

/-- When an explicit argument matches no worktree, the command reports the
target as not found, with an empty trace. -/
theorem rebaseSession_notFound (env : FanoutEnv) (sess : SessionBackend)
    (dir br : String) (wts : List Worktree) (target : String)
    (choice : Option Nat) (msg : String)
    (h : wts.isEmpty = false)
    (hnone : findTargetWorktree wts target = none) :
    rebaseSession env sess dir br wts (some target) choice msg
      = (RebaseSessionResult.notFound target, []) := by
  simp only [rebaseSession, h, Bool.false_eq_true, if_false, resolveTarget, hnone]

theorem rebaseSessionOn_self (sess : SessionBackend) (br : String) (wt : Worktree)
    (msg : String) (tr0 : List GitCmd) (h : wt.branch = br) :
    rebaseSessionOn sess br wt msg tr0 = (RebaseSessionResult.selfRebase br, tr0) := by
  simp [rebaseSessionOn, h]

theorem rebaseSessionOn_emptyMsg (sess : SessionBackend) (br : String) (wt : Worktree)
    (tr0 : List GitCmd) (h : wt.branch ≠ br) :
    rebaseSessionOn sess br wt "" tr0 = (RebaseSessionResult.emptyMessage, tr0) := by
  simp [rebaseSessionOn, h]

/-- C7: with an empty (trimmed) commit message, the single-target rebase
command issues no mutating backend command (no stage, no commit, no rebase)
on any path through the command, and whenever a target worktree was resolved
and the self-rebase guard passed, the reported outcome is the empty-message
rejection. -/
theorem c7_empty_message_rejected (env : FanoutEnv) (sess : SessionBackend)
    (dir br : String) (wts : List Worktree) (arg : Option String)
    (choice : Option Nat) :
    (∀ c ∈ (rebaseSession env sess dir br wts arg choice "").2, c.isMutation = false)
    ∧ (∀ wt : Worktree, wts.isEmpty = false →
        (resolveTarget env wts dir br arg choice).1 = some wt →
        wt.branch ≠ br →
        (rebaseSession env sess dir br wts arg choice "").1
          = RebaseSessionResult.emptyMessage) := by
  constructor
  · intro c hc
    by_cases h0 : wts.isEmpty
    · simp only [rebaseSession, h0, if_true] at hc
      cases hc
    · rw [Bool.not_eq_true] at h0
      rcases hrt : resolveTarget env wts dir br arg choice with ⟨sel, tr⟩
      have htr : ∀ c' ∈ tr, GitCmd.isMutation c' = false := by
        intro c' hc'
        exact resolveTarget_trace_readonly env wts dir br arg choice c'
          (by rw [hrt]; exact hc')
      rcases sel with _ | wt
      · rcases arg with _ | t
        · simp only [rebaseSession, h0, Bool.false_eq_true, if_false, hrt] at hc
          exact htr c hc
        · simp only [rebaseSession, h0, Bool.false_eq_true, if_false, hrt] at hc
          exact htr c hc
      · simp only [rebaseSession, h0, Bool.false_eq_true, if_false, hrt] at hc
        by_cases hbr : wt.branch = br
        · rw [rebaseSessionOn_self sess br wt "" tr hbr] at hc
          exact htr c hc
        · rw [rebaseSessionOn_emptyMsg sess br wt tr hbr] at hc
          exact htr c hc
  · intro wt h0 hsel hbr
    rw [rebaseSession_someTarget env sess dir br wts arg choice "" wt h0 hsel,
      rebaseSessionOn_emptyMsg sess br wt _ hbr]

/-- C7 witness: one worktree selected by branch name, empty message:
rejected, and concretely no backend command at all was issued. -/
theorem c7_empty_message_rejected_witness :
    (rebaseSession
        ⟨fun _ => false, fun _ => some 0, fun _ => some 0,
         fun _ => ⟨true, "", ""⟩, fun _ => true⟩
        ⟨fun _ => none, fun _ _ => none, fun _ => ⟨true, "", ""⟩, fun _ => true⟩
        "/d" "main" [⟨"/a", "fa"⟩] (some "fa") none "").1
      = RebaseSessionResult.emptyMessage :=
  (c7_empty_message_rejected
      ⟨fun _ => false, fun _ => some 0, fun _ => some 0,
       fun _ => ⟨true, "", ""⟩, fun _ => true⟩
      ⟨fun _ => none, fun _ _ => none, fun _ => ⟨true, "", ""⟩, fun _ => true⟩
      "/d" "main" [⟨"/a", "fa"⟩] (some "fa") none).2
    ⟨"/a", "fa"⟩ (by decide) (by decide) (by decide)

/-- C8: when the resolved target worktree's branch equals the invoking
context's current branch, the command is rejected with the self-rebase error
(not silently skipped), and no mutating backend command is issued. -/
theorem c8_self_rebase_rejected (env : FanoutEnv) (sess : SessionBackend)
    (dir br : String) (wts : List Worktree) (arg : Option String)
    (choice : Option Nat) (msg : String) (wt : Worktree)
    (h0 : wts.isEmpty = false)
    (hsel : (resolveTarget env wts dir br arg choice).1 = some wt)
    (hbr : wt.branch = br) :
    (rebaseSession env sess dir br wts arg choice msg).1
      = RebaseSessionResult.selfRebase br
    ∧ ∀ c ∈ (rebaseSession env sess dir br wts arg choice msg).2,
        c.isMutation = false := by
  have heq := rebaseSession_someTarget env sess dir br wts arg choice msg wt h0 hsel
  rw [rebaseSessionOn_self sess br wt msg _ hbr] at heq
  constructor
  · rw [heq]
  · intro c hc
    rw [heq] at hc
    exact resolveTarget_trace_readonly env wts dir br arg choice c hc

/-- C8 witness: the only worktree's branch is the current branch; selecting
it by branch name yields the self-rebase rejection. -/
theorem c8_self_rebase_rejected_witness :
    (rebaseSession
        ⟨fun _ => false, fun _ => some 0, fun _ => some 0,
         fun _ => ⟨true, "", ""⟩, fun _ => true⟩
        ⟨fun _ => none, fun _ _ => none, fun _ => ⟨true, "", ""⟩, fun _ => true⟩
        "/d" "main" [⟨"/a", "main"⟩] (some "main") none "a message").1
      = RebaseSessionResult.selfRebase "main" :=
  (c8_self_rebase_rejected
      ⟨fun _ => false, fun _ => some 0, fun _ => some 0,
       fun _ => ⟨true, "", ""⟩, fun _ => true⟩
      ⟨fun _ => none, fun _ _ => none, fun _ => ⟨true, "", ""⟩, fun _ => true⟩
      "/d" "main" [⟨"/a", "main"⟩] (some "main") none "a message" ⟨"/a", "main"⟩
      (by decide) (by decide) rfl).1

/-- C10: a path-like argument (beginning with `/`, `.` or `~`) selects the
first worktree in discovery order whose path equals the argument or merely
ends with it — so a worktree can be selected because its path only
coincidentally ends with the argument; any other argument is matched solely
by exact branch-name equality, first match in discovery order; and when no
worktree matches, the command reports the target as not found with no
backend command issued at all. -/
theorem c10_argument_matching (wts : List Worktree) (target : String) :
    (∀ wt : Worktree, pathLikeArg target = true →
       findTargetWorktree wts target = some wt →
       (wt.path == target || strHasSuffix wt.path target) = true
       ∧ ∃ l1 l2, wts = l1 ++ wt :: l2
           ∧ ∀ x ∈ l1, (x.path == target || strHasSuffix x.path target) = false)
    ∧ (∀ wt : Worktree, pathLikeArg target = false →
       findTargetWorktree wts target = some wt →
       wt.branch = target
       ∧ ∃ l1 l2, wts = l1 ++ wt :: l2 ∧ ∀ x ∈ l1, x.branch ≠ target)
    ∧ (findTargetWorktree wts target = none →
       ∀ (env : FanoutEnv) (sess : SessionBackend) (dir br : String)
         (choice : Option Nat) (msg : String), wts.isEmpty = false →
       rebaseSession env sess dir br wts (some target) choice msg
         = (RebaseSessionResult.notFound target, []))
    ∧ (findTargetWorktree [⟨"/home/u/proj.x", "m"⟩] "/proj.x"
         = some ⟨"/home/u/proj.x", "m"⟩
       ∧ ("/home/u/proj.x" : String) ≠ "/proj.x") := by
  refine ⟨?_, ?_, ?_, by decide⟩
  · intro wt hp hf
    simp only [findTargetWorktree, hp, if_true] at hf
    exact find?_first_match _ wts wt hf
  · intro wt hp hf
    simp only [findTargetWorktree, hp, Bool.false_eq_true, if_false] at hf
    obtain ⟨h1, l1, l2, rfl, hall⟩ := find?_first_match _ _ wt hf
    refine ⟨by simpa using h1, l1, l2, rfl, ?_⟩
    intro x hx
    simpa using hall x hx
  · intro hnone env sess dir br choice msg h0
    exact rebaseSession_notFound env sess dir br wts target choice msg h0 hnone

/-- C10 witness: the argument `/proj.x` (path-like) selects a worktree whose
path merely ends with it. -/
theorem c10_argument_matching_witness :
    (("/home/u/proj.x" : String) == "/proj.x"
      || strHasSuffix "/home/u/proj.x" "/proj.x") = true :=
  ((c10_argument_matching [⟨"/home/u/proj.x", "m"⟩] "/proj.x").1
      ⟨"/home/u/proj.x", "m"⟩ (by decide) (by decide)).1

end CCSwitch

